import Mathlib

/-!
Shallow embedding of `verify-commits/verify-commits.py` (revault/maintainer-tools):
a chain-of-custody verifier that walks commit ancestry backwards from a starting
commit towards a primary trust root, checking signatures, recursive tree content
hashes and merge cleanliness on the way.

The SHA-512 accumulator is modelled collision-freely: a digest is represented by
the exact byte stream fed into the hash (`update` calls concatenate), so two
digests are equal in the model iff the streams fed to the real hash coincide.
-/

set_option maxHeartbeats 1000000

namespace VerifyCommits

/-- One line of `git ls-tree --full-tree -r <commit>`: either a regular file
(`blob` metadata kind, with its content) or a submodule pointer (`commit`
metadata kind, carrying the listing of the target repository's tree at the
referenced commit, which `tree_sha512sum` recurses into after `os.chdir`). -/
inductive Entry where
  | blob (name : String) (content : String)
  | submodule (name : String) (sub : List Entry)

/-- The per-file inner `hashlib.sha512` digest of a blob's content, in the
stream model (the digest stands for the content bytes fed to it). -/
def blobDigest (content : String) : String := content

/-- Selects the `blob` lines of a listing, keeping `(name, content)`;
mirrors `files.append(name); blob_by_name[name] = metadata[2]`. -/
def entryBlob : Entry → Option (String × String)
  | Entry.blob n c => some (n, c)
  | Entry.submodule _ _ => none

/-- Selects the submodule target listings, in listing order. -/
def entrySub : Entry → Option (List Entry)
  | Entry.blob _ _ => none
  | Entry.submodule _ s => some s

def blobPairs (t : List Entry) : List (String × String) := t.filterMap entryBlob

def fileNames (t : List Entry) : List String := (blobPairs t).map Prod.fst

def subTrees (t : List Entry) : List (List Entry) := t.filterMap entrySub

/-- The `blob_by_name` dict lookup: Python dict assignment overwrites, so the
last pair with the queried name wins. -/
def lookupLast (n : String) : List (String × String) → Option String
  | [] => none
  | (m, c) :: rest =>
    match lookupLast n rest with
    | some r => some r
    | none => if m = n then some c else none

/-- Bytes fed to `overall` for one sorted file name `f`:
`overall.update(dig); overall.update("  "); overall.update(f); overall.update("\n")`. -/
def blobFeed (pairs : List (String × String)) (f : String) : String :=
  blobDigest ((lookupLast f pairs).getD "") ++ "  " ++ f ++ "\n"

/-- Concatenation of consecutive `overall.update` calls. -/
def strJoin : List String → String
  | [] => ""
  | s :: rest => s ++ strJoin rest

/-- Bytes fed to `overall` after the listing loop: the blob digests, in order of
the name-sorted `files` list (`files.sort()`). -/
def sortedBlobFeeds (t : List Entry) : String :=
  strJoin (((fileNames t).insertionSort (· ≤ ·)).map (blobFeed (blobPairs t)))

/-- Bytes fed to `overall` during the listing loop itself: for every submodule
entry, in listing order, the recursive digest of the submodule tree
(`overall.update(bytes.fromhex(tree_sha512sum(metadata[2].decode())))`).
Blob entries feed nothing at this stage. -/
def subFeeds : List Entry → String
  | [] => ""
  | Entry.blob _ _ :: rest => subFeeds rest
  | Entry.submodule _ sub :: rest => (subFeeds sub ++ sortedBlobFeeds sub) ++ subFeeds rest

/-- `tree_sha512sum`: the overall digest of a tree listing, in the stream model:
first the submodule digests in listing order, then the sorted blob feeds. -/
def tree_sha512sum (t : List Entry) : String :=
  subFeeds t ++ sortedBlobFeeds t

/-! ## The History Walker (`main`, lines 117-224) -/

/-- Everything `git show -s` can report about one commit. `none` from the
`commits` map below models a revision git rejects (`check_output` raises). -/
structure CommitData where
  hash : String          -- %H
  parents : List String  -- the parent ids; %P prints them space-separated
  ctime : Int            -- %ct, committer time in seconds since the epoch
  tree : String          -- %T, the recorded tree id
  body : List String     -- %B split into lines
deriving DecidableEq

/-- The repository read/mutation interface the walker consumes. -/
structure Repo where
  commits : String → Option CommitData
  /-- recursive `ls-tree` listing of the commit's tree, input of `tree_sha512sum` -/
  listing : String → List Entry
  /-- `git verify-commit` under `(ALLOW_SHA1, ALLOW_REVSIG)`; `true` = exit 0 -/
  verify_sig : String → Bool → Bool → Bool
  /-- tree id of `HEAD` after `git checkout p0; git merge --no-ff --no-gpg-sign p1` -/
  merged_tree : String → String → String

/-- The trust-policy data files, already loaded (lines 142-154). -/
structure Policy where
  verified_root : String
  verified_sha512_root : String
  revsig_allowed : List String
  unclean_merge_allowed : List String
  incorrect_sha512_allowed : List String

/-- CLI configuration: `--disable-tree-check` stores `verify_tree`;
`--clean-merge` is a float defaulting to `float('inf')`, modelled as
`Option ℚ` with `none` for infinity; `now` is the value of `time.time()`. -/
structure Config where
  verify_tree : Bool
  clean_merge : Option ℚ
  now : ℚ

/-- The walker's mutable state at the top of the `while True` loop. -/
structure St where
  current : String
  prev : String
  verify_tree : Bool
  no_sha1 : Bool
  /-- the ref the shared worktree is checked out at -/
  workspace : String
deriving DecidableEq

/-- Unhandled Python exceptions the loop can die from. -/
inductive Err where
  | indexError           -- `splitlines()[0]` on empty output
  | calledProcessError   -- `check_output` saw a non-zero git exit status
deriving DecidableEq

/-- The diagnostic printed with a `sys.exit(1)` rejection. -/
inductive Reason where
  | unsignedNoPrev (c : String)     -- "{c} was not signed with a trusted key!"
  | unsignedParents (prev : String) -- "No parent of {prev} was signed with a trusted key!"
  | treeMismatch (c : String)       -- "Tree-SHA512 did not match for commit {c}"
  | octopus (c : String)            -- "Commit {c} is an octopus merge"
  | uncleanMerge (c : String)       -- "Merge commit {c} is not clean"
deriving DecidableEq

/-- How one run of `main` ends; each constructor carrying the ref the worktree
is left checked out at. -/
inductive Outcome where
  | accept                                   -- sys.exit(0), line 171
  | reject (r : Reason) (ws : String)        -- sys.exit(1) after a diagnostic
  | crash (e : Err) (ws : String)            -- unhandled exception (non-zero exit)
  | usageError (msg : String)                -- pre-walk sys.exit(1), lines 158-160
deriving DecidableEq

/-- Exit status of the process for each outcome (a Python traceback also
exits non-zero). -/
def exitCode : Outcome → Nat
  | Outcome.accept => 0
  | _ => 1

/-- Workspace-mutating git calls issued by the merge-cleanliness block. -/
inductive Ev where
  | checkout (ref : String)
  | mergeNoFF (ref : String)
  | diff (c : String)
deriving DecidableEq

/-- `" ".join`: how `--format=format:%P` prints the parent list. -/
def joinParents : List String → String
  | [] => ""
  | [p] => p
  | p :: rest => p ++ " " ++ joinParents rest

/-- Python `str.splitlines` on the newline-free `format:` outputs used here:
`[]` on the empty string, otherwise the single line. -/
def pySplitlines (s : String) : List String := if s = "" then [] else [s]

/-- Python `str.split(c)` for a single-character separator: splits at every
occurrence, keeping empty pieces (`"".split(' ') == ['']`). -/
def pySplitAux (c : Char) : List Char → List Char → List String
  | [], acc => [String.mk acc.reverse]
  | x :: xs, acc =>
    if x = c then String.mk acc.reverse :: pySplitAux c xs []
    else pySplitAux c xs (x :: acc)

def pySplit (s : String) (c : Char) : List String := pySplitAux c s.data []

/-- Line 202 (and 187): `....decode('utf8').splitlines()[0].split(' ')`,
as a partial parse: `none` when `splitlines()` is empty and `[0]` raises. -/
def parsedParents (d : CommitData) : Option (List String) :=
  ((pySplitlines (joinParents d.parents)).head?).map (fun l => pySplit l ' ')

/-- Lines 172-176: on reaching the secondary root both trust flags drop. -/
def anchorUpdate (pol : Policy) (st : St) : St :=
  if st.current = pol.verified_sha512_root then
    { st with verify_tree := false, no_sha1 := false }
  else st

/-- The `ALLOW_SHA1` value exported for the signature check of `st.current`
(line 178, after the anchor update). -/
def sigAllowSha1 (pol : Policy) (st : St) : Bool := !(anchorUpdate pol st).no_sha1

/-- Line 195's guard: `(verify_tree or prev_commit == "") and
current_commit not in incorrect_sha512_allowed`. -/
def treeCheckNeeded (pol : Policy) (st : St) : Bool :=
  (st.verify_tree || st.prev == "") && !(pol.incorrect_sha512_allowed.contains st.current)

/-- The exact line the commit message must contain (line 197). -/
def treeLine (repo : Repo) (c : String) : String :=
  "Tree-SHA512: " ++ tree_sha512sum (repo.listing c)

/-- Line 209: `commit_time > time.time() - args.clean_merge * 24 * 60 * 60`.
With the `float('inf')` default the right side is `-inf`, so the test is
always true. -/
def checkMerge (ctime : Int) (now : ℚ) : Option ℚ → Bool
  | none => true
  | some n => decide ((ctime : ℚ) > now - n * (24 * 60 * 60))

/-- Lines 184-192: diagnostics after `git verify-commit` failed. The
`for parent in parents: git_show_commit_hash(parent)` loop raises on the first
unresolvable parent; `splitlines()[0]` raises when `prev` has no parents. -/
def sigFail (repo : Repo) (st : St) : Outcome :=
  if st.prev = "" then Outcome.reject (Reason.unsignedNoPrev st.current) st.workspace
  else
    match repo.commits st.prev with
    | none => Outcome.crash Err.calledProcessError st.workspace
    | some dp =>
      match (pySplitlines (joinParents dp.parents)).head? with
      | none => Outcome.crash Err.indexError st.workspace
      | some line =>
        if (pySplit line ' ').all (fun p => (repo.commits p).isSome) then
          Outcome.reject (Reason.unsignedParents st.prev) st.workspace
        else Outcome.crash Err.calledProcessError st.workspace

/-- Lines 207-224: recency-windowed merge-cleanliness check, then the step to
`parents[0]`. Returns the workspace-mutating calls issued and either a terminal
outcome or the state for the next iteration. -/
def mergePhase (repo : Repo) (pol : Policy) (cfg : Config) (branch : String)
    (st : St) (d : CommitData) (parents : List String) : List Ev × Sum Outcome St :=
  let check_merge := checkMerge d.ctime cfg.now cfg.clean_merge
  let allow_unclean := pol.unclean_merge_allowed.contains st.current
  if parents.length == 2 && check_merge && !allow_unclean then
    let current_tree := d.tree
    let p0 := parents.headI
    let p1 := parents.getD 1 ""
    let recreated := repo.merged_tree p0 p1
    if current_tree ≠ recreated then
      ([Ev.checkout p0, Ev.mergeNoFF p1, Ev.diff st.current, Ev.checkout branch],
       Sum.inl (Outcome.reject (Reason.uncleanMerge st.current) branch))
    else
      ([Ev.checkout p0, Ev.mergeNoFF p1, Ev.checkout branch],
       Sum.inr { st with prev := st.current, current := p0, workspace := branch })
  else
    ([], Sum.inr { st with prev := st.current, current := parents.headI })

/-- Lines 201-224: parse the parent list (raising `IndexError` on a parentless
commit, see line 202), reject octopus merges, then run the merge phase. -/
def parentsPhase (repo : Repo) (pol : Policy) (cfg : Config) (branch : String)
    (st : St) : List Ev × Sum Outcome St :=
  match repo.commits st.current with
  | none => ([], Sum.inl (Outcome.crash Err.calledProcessError st.workspace))
  | some d =>
    match (pySplitlines (joinParents d.parents)).head? with
    | none => ([], Sum.inl (Outcome.crash Err.indexError st.workspace))
    | some line =>
      let parents := pySplit line ' '
      if parents.length > 2 then
        ([], Sum.inl (Outcome.reject (Reason.octopus st.current) st.workspace))
      else mergePhase repo pol cfg branch st d parents

/-- Lines 194-199: the Tree-SHA512 check, when its guard holds. -/
def treePhase (repo : Repo) (pol : Policy) (cfg : Config) (branch : String)
    (st : St) : List Ev × Sum Outcome St :=
  if treeCheckNeeded pol st then
    match repo.commits st.current with
    | none => ([], Sum.inl (Outcome.crash Err.calledProcessError st.workspace))
    | some d =>
      if treeLine repo st.current ∈ d.body then parentsPhase repo pol cfg branch st
      else ([], Sum.inl (Outcome.reject (Reason.treeMismatch st.current) st.workspace))
  else parentsPhase repo pol cfg branch st

/-- One iteration of the `while True` loop (lines 168-224). -/
def stepSt (repo : Repo) (pol : Policy) (cfg : Config) (branch : String)
    (st : St) : List Ev × Sum Outcome St :=
  if st.current = pol.verified_root then ([], Sum.inl Outcome.accept)
  else
    let st := anchorUpdate pol st
    if repo.verify_sig st.current (!st.no_sha1) (pol.revsig_allowed.contains st.current) then
      treePhase repo pol cfg branch st
    else ([], Sum.inl (sigFail repo st))

/-- The loop, with fuel; `none` means the fuel ran out (a model artifact: the
Python loop just keeps walking). -/
def runO (repo : Repo) (pol : Policy) (cfg : Config) (branch : String) :
    Nat → St → Option Outcome
  | 0, _ => none
  | n + 1, st =>
    match (stepSt repo pol cfg branch st).2 with
    | Sum.inl o => some o
    | Sum.inr st' => runO repo pol cfg branch n st'

/-- The states on which loop iterations were actually performed, in order. -/
def statesVisited (repo : Repo) (pol : Policy) (cfg : Config) (branch : String) :
    Nat → St → List St
  | 0, _ => []
  | n + 1, st =>
    st ::
      match (stepSt repo pol cfg branch st).2 with
      | Sum.inl _ => []
      | Sum.inr st' => statesVisited repo pol cfg branch n st'

/-- Lines 156-224 of `main`, after the data files are loaded: the space check
on the commit argument, branch resolution (`git_show_commit_hash`, line 165)
and the walk. The worktree starts checked out at `branch`. -/
def mainRun (repo : Repo) (pol : Policy) (cfg : Config) (fuel : Nat)
    (commit_arg : String) : Option Outcome :=
  if commit_arg.data.contains ' ' then some (Outcome.usageError "Commit must not contain spaces")
  else
    match repo.commits commit_arg with
    | none => some (Outcome.crash Err.calledProcessError "")
    | some d =>
      runO repo pol cfg d.hash fuel
        { current := commit_arg, prev := "", verify_tree := cfg.verify_tree,
          no_sha1 := true, workspace := d.hash }

/-! ## Concrete instances used by witnesses -/

/-- A simple linear chain `A → B → R` with valid signatures everywhere,
empty trees and correct `Tree-SHA512: ` lines. -/
def chainRepo : Repo where
  commits := fun c =>
    if c = "A" then some ⟨"A", ["B"], 0, "T", ["Tree-SHA512: "]⟩
    else if c = "B" then some ⟨"B", ["R"], 0, "T", ["Tree-SHA512: "]⟩
    else if c = "R" then some ⟨"R", [], 0, "T", ["Tree-SHA512: "]⟩
    else none
  listing := fun _ => []
  verify_sig := fun _ _ _ => true
  merged_tree := fun _ _ => "T"

def chainPolicy : Policy where
  verified_root := "R"
  verified_sha512_root := "Z"
  revsig_allowed := []
  unclean_merge_allowed := []
  incorrect_sha512_allowed := []

def defaultCfg : Config where
  verify_tree := true
  clean_merge := none
  now := 0

/-- A chain `B → A` where `A` has no parents and is not a trust anchor:
`%P` for `A` prints the empty string. -/
def noParentRepo : Repo where
  commits := fun c =>
    if c = "B" then some ⟨"B", ["A"], 0, "T", ["Tree-SHA512: "]⟩
    else if c = "A" then some ⟨"A", [], 0, "T", ["Tree-SHA512: "]⟩
    else none
  listing := fun _ => []
  verify_sig := fun _ _ _ => true
  merged_tree := fun _ _ => "T"

/-- A two-parent merge commit `M` over `P` and `Q` whose recorded tree `Tm`
differs from the re-merged tree `T`. -/
def mergeRepo : Repo where
  commits := fun c =>
    if c = "M" then some ⟨"M", ["P", "Q"], 0, "Tm", ["Tree-SHA512: "]⟩
    else if c = "P" then some ⟨"P", ["R"], 0, "T", ["Tree-SHA512: "]⟩
    else if c = "Q" then some ⟨"Q", ["R"], 0, "T", ["Tree-SHA512: "]⟩
    else if c = "R" then some ⟨"R", [], 0, "T", ["Tree-SHA512: "]⟩
    else none
  listing := fun _ => []
  verify_sig := fun _ _ _ => true
  merged_tree := fun _ _ => "T"

/-- A commit `W` whose message claims a wrong tree digest. -/
def mismRepo : Repo where
  commits := fun c =>
    if c = "W" then some ⟨"W", ["R"], 0, "T", ["Tree-SHA512: WRONG"]⟩
    else if c = "R" then some ⟨"R", [], 0, "T", ["Tree-SHA512: "]⟩
    else none
  listing := fun _ => []
  verify_sig := fun _ _ _ => true
  merged_tree := fun _ _ => "T"

/-- A commit `O` with three parents. -/
def octoRepo : Repo where
  commits := fun c =>
    if c = "O" then some ⟨"O", ["P", "Q", "S"], 0, "T", ["Tree-SHA512: "]⟩
    else none
  listing := fun _ => []
  verify_sig := fun _ _ _ => true
  merged_tree := fun _ _ => "T"

/-- Two listings of identical content differing only in listing order, with two
distinct submodule entries. -/
def subSwapL1 : List Entry :=
  [Entry.submodule "a" [Entry.blob "x" "1"], Entry.submodule "b" [Entry.blob "y" "2"]]

def subSwapL2 : List Entry :=
  [Entry.submodule "b" [Entry.blob "y" "2"], Entry.submodule "a" [Entry.blob "x" "1"]]

/-! ## Theorems -/

/-! ### Content Hasher lemmas (claim C1) -/

lemma lookupLast_not_mem (n : String) :
    ∀ l : List (String × String), n ∉ l.map Prod.fst → lookupLast n l = none := by
  intro l
  induction l with
  | nil => intro _; rfl
  | cons p rest ih =>
    rcases p with ⟨m, c⟩
    intro h
    have hm : ¬m = n := fun e => h (by simp [e])
    have hrest : n ∉ rest.map Prod.fst := fun e => h (by simp [e])
    simp [lookupLast, ih hrest, hm]

lemma lookupLast_mem {n c : String} :
    ∀ {l : List (String × String)}, lookupLast n l = some c → (n, c) ∈ l := by
  intro l
  induction l with
  | nil => intro h; simp [lookupLast] at h
  | cons p rest ih =>
    rcases p with ⟨m, d⟩
    intro h
    simp only [lookupLast] at h
    cases hr : lookupLast n rest with
    | some r =>
      rw [hr] at h
      cases h
      exact List.mem_cons_of_mem _ (ih hr)
    | none =>
      rw [hr] at h
      by_cases hm : m = n
      · simp only [hm, if_pos rfl] at h
        cases h
        subst hm
        exact List.mem_cons_self _ _
      · simp [hm] at h

lemma mem_lookupLast {n c : String} :
    ∀ {l : List (String × String)}, (l.map Prod.fst).Nodup → (n, c) ∈ l →
      lookupLast n l = some c := by
  intro l
  induction l with
  | nil => intro _ h; simp at h
  | cons p rest ih =>
    rcases p with ⟨m, d⟩
    intro hnd hmem
    have hnd' : (rest.map Prod.fst).Nodup := (List.nodup_cons.mp hnd).2
    rcases List.mem_cons.mp hmem with he | hrest
    · cases he
      have hnin : n ∉ rest.map Prod.fst := (List.nodup_cons.mp hnd).1
      simp [lookupLast, lookupLast_not_mem n rest hnin]
    · simp [lookupLast, ih hnd' hrest]

lemma lookupLast_perm {l₁ l₂ : List (String × String)} (p : l₁.Perm l₂)
    (h : (l₁.map Prod.fst).Nodup) (n : String) : lookupLast n l₁ = lookupLast n l₂ := by
  have h₂ : (l₂.map Prod.fst).Nodup := (p.map Prod.fst).nodup_iff.mp h
  cases hl : lookupLast n l₁ with
  | some c => rw [mem_lookupLast h₂ (p.subset (lookupLast_mem hl))]
  | none =>
    cases hl₂ : lookupLast n l₂ with
    | some c =>
      rw [mem_lookupLast h (p.symm.subset (lookupLast_mem hl₂))] at hl
      exact absurd hl (by simp)
    | none => rfl

lemma subFeeds_join : ∀ t : List Entry,
    subFeeds t = strJoin ((subTrees t).map tree_sha512sum) := by
  intro t
  induction t with
  | nil => simp [subFeeds, subTrees, strJoin]
  | cons e rest ih =>
    cases e with
    | blob n c => simpa [subFeeds, subTrees, entrySub] using ih
    | submodule n sub =>
      simp [subFeeds, subTrees, entrySub, ih, strJoin, tree_sha512sum,
        String.append_assoc]

/-! ### Content Hasher: claim C1 -/

/-- C1 (amended): `tree_sha512sum` is stable under permutations of the
tree-listing order that keep the sequence of submodule targets unchanged,
provided blob names are distinct (as they are in a git listing). Only the blob
digests are fed into the overall accumulator after sorting by name; the
submodule digests are fed during the listing loop, in listing order. -/
theorem tree_hash_stable_up_to_submodule_order
    (l₁ l₂ : List Entry) (hperm : l₁.Perm l₂)
    (hsubs : subTrees l₁ = subTrees l₂)
    (hnodup : (fileNames l₁).Nodup) :
    tree_sha512sum l₁ = tree_sha512sum l₂ := by
  have hpairs : (blobPairs l₁).Perm (blobPairs l₂) := hperm.filterMap entryBlob
  have hnames : (fileNames l₁).Perm (fileNames l₂) := hpairs.map Prod.fst
  have hsorted :
      (fileNames l₁).insertionSort (· ≤ ·) = (fileNames l₂).insertionSort (· ≤ ·) :=
    List.eq_of_perm_of_sorted
      ((List.perm_insertionSort _ _).trans
        (hnames.trans (List.perm_insertionSort _ _).symm))
      (List.sorted_insertionSort _ _) (List.sorted_insertionSort _ _)
  have hfeed : ∀ f, blobFeed (blobPairs l₁) f = blobFeed (blobPairs l₂) f := by
    intro f
    unfold blobFeed
    rw [lookupLast_perm hpairs hnodup f]
  unfold tree_sha512sum sortedBlobFeeds
  rw [subFeeds_join, subFeeds_join, hsubs, hsorted]
  exact congrArg _ (congrArg _ (List.map_congr_left fun f _ => hfeed f))

/-- C1 (witness for the amended theorem): swapping two blob entries leaves the
digest unchanged. -/
theorem tree_hash_stable_up_to_submodule_order_witness :
    tree_sha512sum [Entry.blob "b" "2", Entry.blob "a" "1"]
      = tree_sha512sum [Entry.blob "a" "1", Entry.blob "b" "2"] :=
  tree_hash_stable_up_to_submodule_order _ _ (List.Perm.swap _ _ _) rfl (by decide)

/-- C1 (counterexample): the digest is NOT invariant under every permutation of
listings containing submodule entries: swapping two submodule entries swaps the
order in which their digests enter the overall accumulator. -/
theorem tree_hash_not_listing_order_independent :
    subSwapL1.Perm subSwapL2 ∧ tree_sha512sum subSwapL1 ≠ tree_sha512sum subSwapL2 := by
  constructor
  · unfold subSwapL1 subSwapL2
    exact List.Perm.swap _ _ _
  · have h₁ : tree_sha512sum subSwapL1 = "1  x\n2  y\n" := by
      simp [subSwapL1, tree_sha512sum, subFeeds, sortedBlobFeeds, fileNames,
        blobPairs, strJoin, blobFeed, lookupLast, blobDigest, entryBlob,
        List.insertionSort, List.orderedInsert]
    have h₂ : tree_sha512sum subSwapL2 = "2  y\n1  x\n" := by
      simp [subSwapL2, tree_sha512sum, subFeeds, sortedBlobFeeds, fileNames,
        blobPairs, strJoin, blobFeed, lookupLast, blobDigest, entryBlob,
        List.insertionSort, List.orderedInsert]
    rw [h₁, h₂]
    decide


/-! ### Walker step lemmas -/

lemma anchorUpdate_current (pol : Policy) (st : St) :
    (anchorUpdate pol st).current = st.current := by
  unfold anchorUpdate; split <;> rfl

lemma anchorUpdate_prev (pol : Policy) (st : St) :
    (anchorUpdate pol st).prev = st.prev := by
  unfold anchorUpdate; split <;> rfl

lemma anchorUpdate_workspace (pol : Policy) (st : St) :
    (anchorUpdate pol st).workspace = st.workspace := by
  unfold anchorUpdate; split <;> rfl

lemma anchorUpdate_at_anchor {pol : Policy} {st : St}
    (h : st.current = pol.verified_sha512_root) :
    anchorUpdate pol st = { st with verify_tree := false, no_sha1 := false } := by
  unfold anchorUpdate; rw [if_pos h]

lemma anchorUpdate_off_anchor {pol : Policy} {st : St}
    (h : st.current ≠ pol.verified_sha512_root) :
    anchorUpdate pol st = st := by
  unfold anchorUpdate; rw [if_neg h]

lemma mergePhase_inr {repo pol cfg branch st d parents st'}
    (h : (mergePhase repo pol cfg branch st d parents).2 = Sum.inr st') :
    st'.verify_tree = st.verify_tree ∧ st'.no_sha1 = st.no_sha1 := by
  simp only [mergePhase] at h
  split at h
  · split at h
    · simp at h
    · simp only at h
      cases h
      exact ⟨rfl, rfl⟩
  · simp only at h
    cases h
    exact ⟨rfl, rfl⟩

lemma parentsPhase_inr {repo pol cfg branch st st'}
    (h : (parentsPhase repo pol cfg branch st).2 = Sum.inr st') :
    st'.verify_tree = st.verify_tree ∧ st'.no_sha1 = st.no_sha1 := by
  unfold parentsPhase at h
  split at h
  · simp at h
  · split at h
    · simp at h
    · dsimp only at h
      split at h
      · simp at h
      · exact mergePhase_inr h

lemma treePhase_inr {repo pol cfg branch st st'}
    (h : (treePhase repo pol cfg branch st).2 = Sum.inr st') :
    st'.verify_tree = st.verify_tree ∧ st'.no_sha1 = st.no_sha1 := by
  unfold treePhase at h
  split at h
  · split at h
    · simp at h
    · split at h
      · exact parentsPhase_inr h
      · simp at h
  · exact parentsPhase_inr h

lemma stepSt_inr {repo pol cfg branch st st'}
    (h : (stepSt repo pol cfg branch st).2 = Sum.inr st') :
    st'.verify_tree = (anchorUpdate pol st).verify_tree
      ∧ st'.no_sha1 = (anchorUpdate pol st).no_sha1 := by
  unfold stepSt at h
  split at h
  · simp at h
  · dsimp only at h
    split at h
    · exact treePhase_inr h
    · simp at h

lemma stepSt_eq_treePhase {repo : Repo} {pol : Policy} {cfg : Config}
    {branch : String} {st : St}
    (hroot : st.current ≠ pol.verified_root)
    (hsig : repo.verify_sig st.current (sigAllowSha1 pol st)
      (pol.revsig_allowed.contains st.current) = true) :
    stepSt repo pol cfg branch st = treePhase repo pol cfg branch (anchorUpdate pol st) := by
  unfold stepSt
  rw [if_neg hroot]
  dsimp only
  have hcond : repo.verify_sig (anchorUpdate pol st).current
      (!(anchorUpdate pol st).no_sha1)
      (pol.revsig_allowed.contains (anchorUpdate pol st).current) = true := by
    rw [anchorUpdate_current]
    exact hsig
  rw [if_pos hcond]

lemma treePhase_eq_parentsPhase {repo : Repo} {pol : Policy} {cfg : Config}
    {branch : String} {st : St} {d : CommitData}
    (hd : repo.commits st.current = some d)
    (hok : treeCheckNeeded pol st = true → treeLine repo st.current ∈ d.body) :
    treePhase repo pol cfg branch st = parentsPhase repo pol cfg branch st := by
  unfold treePhase
  by_cases h : treeCheckNeeded pol st = true
  · rw [if_pos h]
    simp only [hd]
    rw [if_pos (hok h)]
  · rw [if_neg h]

lemma parentsPhase_eq {repo : Repo} {pol : Policy} {cfg : Config}
    {branch : String} {st : St} {d : CommitData} {ps : List String}
    (hd : repo.commits st.current = some d)
    (hp : parsedParents d = some ps) :
    parentsPhase repo pol cfg branch st =
      if ps.length > 2 then
        ([], Sum.inl (Outcome.reject (Reason.octopus st.current) st.workspace))
      else mergePhase repo pol cfg branch st d ps := by
  unfold parentsPhase
  simp only [hd]
  unfold parsedParents at hp
  cases hh : (pySplitlines (joinParents d.parents)).head? with
  | none => rw [hh] at hp; simp at hp
  | some line =>
    rw [hh] at hp
    simp at hp
    dsimp only
    rw [hp]

lemma treePhase_inr_to_parentsPhase {repo pol cfg branch st st'}
    (h : (treePhase repo pol cfg branch st).2 = Sum.inr st') :
    (parentsPhase repo pol cfg branch st).2 = Sum.inr st' := by
  unfold treePhase at h
  split at h
  · split at h
    · simp at h
    · split at h
      · exact h
      · simp at h
  · exact h

lemma stepSt_inr_to_parentsPhase {repo pol cfg branch st st'}
    (h : (stepSt repo pol cfg branch st).2 = Sum.inr st') :
    (parentsPhase repo pol cfg branch (anchorUpdate pol st)).2 = Sum.inr st' := by
  unfold stepSt at h
  split at h
  · simp at h
  · dsimp only at h
    split at h
    · exact treePhase_inr_to_parentsPhase h
    · simp at h

lemma mergePhase_not_treeMismatch {repo pol cfg branch st d parents evs r w}
    (h : mergePhase repo pol cfg branch st d parents
      = (evs, Sum.inl (Outcome.reject (Reason.treeMismatch r) w))) : False := by
  simp only [mergePhase] at h
  split at h
  · split at h <;> simp at h
  · simp at h

lemma parentsPhase_not_treeMismatch {repo pol cfg branch st evs r w}
    (h : parentsPhase repo pol cfg branch st
      = (evs, Sum.inl (Outcome.reject (Reason.treeMismatch r) w))) : False := by
  unfold parentsPhase at h
  split at h
  · simp at h
  · split at h
    · simp at h
    · dsimp only at h
      split at h
      · simp at h
      · exact mergePhase_not_treeMismatch h

lemma sigFail_not_treeMismatch {repo st r w}
    (h : sigFail repo st = Outcome.reject (Reason.treeMismatch r) w) : False := by
  unfold sigFail at h
  split at h
  · simp at h
  · split at h
    · simp at h
    · split at h
      · simp at h
      · split at h <;> simp at h

lemma chainRepo_treeLine (c : String) : treeLine chainRepo c = "Tree-SHA512: " := by
  simp [treeLine, chainRepo, tree_sha512sum, subFeeds, sortedBlobFeeds, fileNames,
    blobPairs, strJoin]

lemma chainRepo_commits (c : String) :
    chainRepo.commits c =
      if c = "A" then some ⟨"A", ["B"], 0, "T", ["Tree-SHA512: "]⟩
      else if c = "B" then some ⟨"B", ["R"], 0, "T", ["Tree-SHA512: "]⟩
      else if c = "R" then some ⟨"R", [], 0, "T", ["Tree-SHA512: "]⟩
      else none := rfl

lemma chainRepo_sig (c : String) (a b : Bool) : chainRepo.verify_sig c a b = true := rfl

/-- The trust flags and the exported `ALLOW_SHA1` along any prefix of the walk
that has not met the secondary root: both flags stay on and the legacy
algorithm stays forbidden. -/
lemma flags_invariant (repo : Repo) (pol : Policy) (cfg : Config) (branch : String) :
    ∀ (n : Nat) (st0 : St) (k : Nat),
      st0.verify_tree = true → st0.no_sha1 = true →
      (∀ s ∈ (statesVisited repo pol cfg branch n st0).take k,
        s.current ≠ pol.verified_sha512_root) →
      ∀ s ∈ (statesVisited repo pol cfg branch n st0).take k,
        s.verify_tree = true ∧ s.no_sha1 = true ∧ sigAllowSha1 pol s = false := by
  intro n
  induction n with
  | zero =>
    intro st0 k _ _ _ s hs
    simp [statesVisited] at hs
  | succ m ih =>
    intro st0 k hvt hns hsec s hs
    cases k with
    | zero => simp at hs
    | succ k' =>
      rw [statesVisited, List.take_succ_cons] at hs hsec
      have hst0 : st0.current ≠ pol.verified_sha512_root :=
        hsec st0 (List.mem_cons_self _ _)
      rcases List.mem_cons.mp hs with he | htail
      · subst he
        refine ⟨hvt, hns, ?_⟩
        unfold sigAllowSha1
        rw [anchorUpdate_off_anchor hst0, hns]
        rfl
      · cases hstep : (stepSt repo pol cfg branch st0).2 with
        | inl o =>
          rw [hstep] at htail
          simp at htail
        | inr st1 =>
          rw [hstep] at htail
          have hflags := stepSt_inr hstep
          rw [anchorUpdate_off_anchor hst0] at hflags
          refine ih st1 k' (hflags.1.trans hvt) (hflags.2.trans hns) ?_ s htail
          intro t ht
          refine hsec t (List.mem_cons_of_mem _ ?_)
          rw [hstep]
          exact ht

/-- C3: before the secondary root is reached both `verify_tree` and `no_sha1`
stay on and `ALLOW_SHA1` is exported as `"0"`; a continuing step turns both
flags off exactly when the current commit is the secondary root; and at the
secondary root itself the legacy algorithm becomes permitted. -/
theorem walker_trust_flags_policy :
    (∀ (repo : Repo) (pol : Policy) (cfg : Config) (branch : String) (st st' : St),
      st.verify_tree = true → st.no_sha1 = true →
      (stepSt repo pol cfg branch st).2 = Sum.inr st' →
      ((st'.verify_tree = false ∧ st'.no_sha1 = false)
        ↔ st.current = pol.verified_sha512_root))
    ∧ (∀ (pol : Policy) (st : St), st.current = pol.verified_sha512_root →
        sigAllowSha1 pol st = true)
    ∧ (∀ (repo : Repo) (pol : Policy) (cfg : Config) (branch : String)
        (n : Nat) (st0 : St) (k : Nat),
        st0.verify_tree = true → st0.no_sha1 = true →
        (∀ s ∈ (statesVisited repo pol cfg branch n st0).take k,
          s.current ≠ pol.verified_sha512_root) →
        ∀ s ∈ (statesVisited repo pol cfg branch n st0).take k,
          s.verify_tree = true ∧ s.no_sha1 = true ∧ sigAllowSha1 pol s = false) := by
  refine ⟨?_, ?_, fun repo pol cfg branch => flags_invariant repo pol cfg branch⟩
  · intro repo pol cfg branch st st' hvt hns hstep
    have hflags := stepSt_inr hstep
    by_cases hsec : st.current = pol.verified_sha512_root
    · rw [anchorUpdate_at_anchor hsec] at hflags
      exact iff_of_true ⟨hflags.1, hflags.2⟩ hsec
    · rw [anchorUpdate_off_anchor hsec] at hflags
      refine iff_of_false ?_ hsec
      rintro ⟨h1, _⟩
      rw [hflags.1, hvt] at h1
      simp at h1
  · intro pol st hsec
    unfold sigAllowSha1
    rw [anchorUpdate_at_anchor hsec]
    rfl

/-- C3 (witness): on a concrete three-commit walk that never meets the
secondary root, every visited state keeps both flags on and `ALLOW_SHA1 = "0"`;
and a concrete anchor state has `ALLOW_SHA1 = "1"`. -/
theorem walker_trust_flags_policy_witness :
    (∀ s ∈ (statesVisited chainRepo
        { chainPolicy with incorrect_sha512_allowed := ["A", "B"] } defaultCfg "A" 4
        ⟨"A", "", true, true, "A"⟩).take 3,
      s.verify_tree = true ∧ s.no_sha1 = true
        ∧ sigAllowSha1 { chainPolicy with incorrect_sha512_allowed := ["A", "B"] } s = false)
    ∧ sigAllowSha1 chainPolicy ⟨"Z", "B", true, true, "A"⟩ = true :=
  ⟨walker_trust_flags_policy.2.2 chainRepo _ defaultCfg "A" 4 _ 3 rfl rfl (by decide),
   walker_trust_flags_policy.2.1 chainPolicy _ rfl⟩

/-- C2: reaching the primary root terminates the walk at once with Accept
(exit status 0); in particular the concrete chain `A → B → R` with valid
signatures, matching tree hashes and no merges is accepted. -/
theorem walker_accepts_at_primary_root :
    (∀ (repo : Repo) (pol : Policy) (cfg : Config) (branch : String) (n : Nat) (st : St),
      st.current = pol.verified_root →
      runO repo pol cfg branch (n + 1) st = some Outcome.accept)
    ∧ mainRun chainRepo chainPolicy defaultCfg 4 "A" = some Outcome.accept
    ∧ exitCode Outcome.accept = 0 := by
  refine ⟨?_, ?_, rfl⟩
  · intro repo pol cfg branch n st h
    simp [runO, stepSt, h]
  · simp [mainRun, runO, stepSt, treePhase, parentsPhase, mergePhase, sigFail,
      anchorUpdate, treeCheckNeeded, chainRepo_treeLine, chainRepo_commits,
      chainRepo_sig, chainPolicy, defaultCfg, pySplit, pySplitAux, pySplitlines,
      joinParents, checkMerge]

/-- C2 (witness): instantiating the immediate-accept part at the root state. -/
theorem walker_accepts_at_primary_root_witness :
    runO chainRepo chainPolicy defaultCfg "R" 1 ⟨"R", "", true, true, "R"⟩
      = some Outcome.accept :=
  walker_accepts_at_primary_root.1 chainRepo chainPolicy defaultCfg "R" 0 _ rfl

/-- C9: when the starting commit is the primary root itself, `main` accepts
for every signature verifier, every tree listing and every merge
reconstruction — none of them is consulted; the primary anchor is never
verified. Only the space check and the branch resolution (line 165) precede
the accept. -/
theorem primary_root_start_accepts_without_verification :
    ∀ (commits : String → Option CommitData) (listing : String → List Entry)
      (vs : String → Bool → Bool → Bool) (mt : String → String → String)
      (pol : Policy) (cfg : Config) (n : Nat) (arg : String) (d : CommitData),
      arg.data.contains ' ' = false → arg = pol.verified_root → commits arg = some d →
      mainRun ⟨commits, listing, vs, mt⟩ pol cfg (n + 1) arg = some Outcome.accept := by
  intro commits listing vs mt pol cfg n arg d hsp hroot hc
  subst hroot
  unfold mainRun
  simp [hsp, hc, runO, stepSt]
  simpa using hsp

/-- C9 (witness): starting at the root with an always-failing signature
verifier still accepts — no verification happens. -/
theorem primary_root_start_accepts_without_verification_witness :
    mainRun ⟨chainRepo.commits, chainRepo.listing, fun _ _ _ => false, fun _ _ => "X"⟩
      chainPolicy defaultCfg 1 "R" = some Outcome.accept :=
  primary_root_start_accepts_without_verification chainRepo.commits chainRepo.listing
    (fun _ _ _ => false) (fun _ _ => "X") chainPolicy defaultCfg 0 "R"
    ⟨"R", [], 0, "T", ["Tree-SHA512: "]⟩ rfl rfl rfl

/-- C10: a starting-commit argument containing a space exits with status 1 and
the message "Commit must not contain spaces", for every repository — the
outcome does not depend on the repository at all, so no traversal, signature
check or repository read is involved. -/
theorem space_in_commit_rejected_before_any_repo_read :
    ∀ (repo : Repo) (pol : Policy) (cfg : Config) (fuel : Nat) (arg : String),
      arg.data.contains ' ' = true →
      mainRun repo pol cfg fuel arg
          = some (Outcome.usageError "Commit must not contain spaces")
        ∧ exitCode (Outcome.usageError "Commit must not contain spaces") = 1 := by
  intro repo pol cfg fuel arg h
  exact ⟨by unfold mainRun; rw [if_pos h], rfl⟩

/-- C10 (witness): the argument `"a b"` is rejected up front. -/
theorem space_in_commit_rejected_before_any_repo_read_witness :
    mainRun chainRepo chainPolicy defaultCfg 4 "a b"
      = some (Outcome.usageError "Commit must not contain spaces") :=
  (space_in_commit_rejected_before_any_repo_read chainRepo chainPolicy defaultCfg 4
    "a b" (by decide)).1

/-- Helper for C4: a `treeMismatch` rejection can only come out of the tree
phase, with its guard on and the exception set not containing the commit. -/
lemma tree_mismatch_only_if {repo : Repo} {pol : Policy} {cfg : Config}
    {branch : String} {st : St} {evs : List Ev} {r w : String}
    (h : stepSt repo pol cfg branch st
      = (evs, Sum.inl (Outcome.reject (Reason.treeMismatch r) w))) :
    treeCheckNeeded pol (anchorUpdate pol st) = true
      ∧ pol.incorrect_sha512_allowed.contains st.current = false
      ∧ r = st.current := by
  unfold stepSt at h
  split at h
  · simp at h
  · dsimp only at h
    split at h
    · unfold treePhase at h
      split at h
      · rename_i hneeded
        split at h
        · simp at h
        · split at h
          · exact absurd h parentsPhase_not_treeMismatch
          · simp only [Prod.mk.injEq, Sum.inl.injEq, Outcome.reject.injEq,
              Reason.treeMismatch.injEq] at h
            have hr : r = st.current := by
              rw [← anchorUpdate_current pol st]
              exact h.2.1.symm
            refine ⟨hneeded, ?_, hr⟩
            have hcf := hneeded
            unfold treeCheckNeeded at hcf
            rw [anchorUpdate_current] at hcf
            rcases Bool.and_eq_true_iff.mp hcf with ⟨-, hcf2⟩
            cases hb : pol.incorrect_sha512_allowed.contains st.current
            · rfl
            · rw [hb] at hcf2
              exact absurd hcf2 (by decide)
      · exact absurd h parentsPhase_not_treeMismatch
    · simp only [Prod.mk.injEq, Sum.inl.injEq] at h
      exact absurd h.2 sigFail_not_treeMismatch

/-- C4: the Tree-SHA512 check runs exactly under the guard
`(verify_tree or first iteration) and current not in the incorrect-hash
exception set`; when it runs and the message lacks the exact digest line the
walk rejects naming the commit, and a commit in the exception set is never
rejected for a wrong digest claim. -/
theorem tree_check_guard_and_rejection :
    (∀ (repo : Repo) (pol : Policy) (cfg : Config) (branch : String) (st : St)
      (d : CommitData),
      st.current ≠ pol.verified_root →
      repo.verify_sig st.current (sigAllowSha1 pol st)
        (pol.revsig_allowed.contains st.current) = true →
      repo.commits st.current = some d →
      treeCheckNeeded pol (anchorUpdate pol st) = true →
      treeLine repo st.current ∉ d.body →
      stepSt repo pol cfg branch st
        = ([], Sum.inl (Outcome.reject (Reason.treeMismatch st.current) st.workspace)))
    ∧ (∀ (repo : Repo) (pol : Policy) (cfg : Config) (branch : String) (st : St)
        (evs : List Ev) (r w : String),
        stepSt repo pol cfg branch st
            = (evs, Sum.inl (Outcome.reject (Reason.treeMismatch r) w)) →
        treeCheckNeeded pol (anchorUpdate pol st) = true
          ∧ pol.incorrect_sha512_allowed.contains st.current = false
          ∧ r = st.current)
    ∧ (∀ (repo : Repo) (pol : Policy) (cfg : Config) (branch : String) (st : St)
        (evs : List Ev) (r w : String),
        pol.incorrect_sha512_allowed.contains st.current = true →
        stepSt repo pol cfg branch st
          ≠ (evs, Sum.inl (Outcome.reject (Reason.treeMismatch r) w))) := by
  refine ⟨?_, fun _ _ _ _ _ _ _ _ h => tree_mismatch_only_if h, ?_⟩
  · intro repo pol cfg branch st d hroot hsig hd hneeded hnotin
    rw [stepSt_eq_treePhase hroot hsig]
    unfold treePhase
    rw [if_pos hneeded]
    have hd' : repo.commits (anchorUpdate pol st).current = some d := by
      rw [anchorUpdate_current]; exact hd
    simp only [hd']
    have hline' : ¬ treeLine repo (anchorUpdate pol st).current ∈ d.body := by
      rw [anchorUpdate_current]; exact hnotin
    rw [if_neg hline', anchorUpdate_current, anchorUpdate_workspace]
  · intro repo pol cfg branch st evs r w hcont h
    have := (tree_mismatch_only_if h).2.1
    rw [hcont] at this
    exact Bool.true_eq_false.mp this

/-- C4 (witness): commit `W` claims a wrong digest and is rejected naming `W`;
instantiating the exception-set conjunct shows the same commit cannot be
tree-rejected once listed. -/
theorem tree_check_guard_and_rejection_witness :
    stepSt mismRepo chainPolicy defaultCfg "W" ⟨"W", "", true, true, "W"⟩
        = ([], Sum.inl (Outcome.reject (Reason.treeMismatch "W") "W"))
      ∧ stepSt mismRepo { chainPolicy with incorrect_sha512_allowed := ["W"] }
          defaultCfg "W" ⟨"W", "", true, true, "W"⟩
          ≠ ([], Sum.inl (Outcome.reject (Reason.treeMismatch "W") "W")) :=
  ⟨tree_check_guard_and_rejection.1 mismRepo chainPolicy defaultCfg "W"
      ⟨"W", "", true, true, "W"⟩
      ⟨"W", ["R"], 0, "T", ["Tree-SHA512: WRONG"]⟩ (by decide) rfl rfl (by decide)
      (by
        have : treeLine mismRepo "W" = "Tree-SHA512: " := by
          simp [treeLine, mismRepo, tree_sha512sum, subFeeds, sortedBlobFeeds,
            fileNames, blobPairs, strJoin]
        rw [this]; decide),
   tree_check_guard_and_rejection.2.2 mismRepo
      { chainPolicy with incorrect_sha512_allowed := ["W"] } defaultCfg "W"
      ⟨"W", "", true, true, "W"⟩ [] "W" "W" (by decide)⟩

/-- C5: a two-parent commit inside the recency window, not excepted, whose
recorded tree differs from the re-merged tree of its parents, is rejected as
unclean, a diff is issued, and the original branch is checked out again on
both the dirty and the clean outcome. -/
theorem unclean_merge_rejected_and_workspace_restored :
    ∀ (repo : Repo) (pol : Policy) (cfg : Config) (branch : String) (st : St)
      (d : CommitData) (p0 p1 : String),
      st.current ≠ pol.verified_root →
      repo.verify_sig st.current (sigAllowSha1 pol st)
        (pol.revsig_allowed.contains st.current) = true →
      repo.commits st.current = some d →
      (treeCheckNeeded pol (anchorUpdate pol st) = true →
        treeLine repo st.current ∈ d.body) →
      parsedParents d = some [p0, p1] →
      checkMerge d.ctime cfg.now cfg.clean_merge = true →
      pol.unclean_merge_allowed.contains st.current = false →
      (d.tree ≠ repo.merged_tree p0 p1 →
        stepSt repo pol cfg branch st
          = ([Ev.checkout p0, Ev.mergeNoFF p1, Ev.diff st.current, Ev.checkout branch],
             Sum.inl (Outcome.reject (Reason.uncleanMerge st.current) branch)))
      ∧ (d.tree = repo.merged_tree p0 p1 →
        stepSt repo pol cfg branch st
          = ([Ev.checkout p0, Ev.mergeNoFF p1, Ev.checkout branch],
             Sum.inr { anchorUpdate pol st with
               prev := st.current, current := p0, workspace := branch })) := by
  intro repo pol cfg branch st d p0 p1 hroot hsig hd hok hp hcm hnot
  have hd' : repo.commits (anchorUpdate pol st).current = some d := by
    rw [anchorUpdate_current]; exact hd
  have hok' : treeCheckNeeded pol (anchorUpdate pol st) = true →
      treeLine repo (anchorUpdate pol st).current ∈ d.body := by
    rw [anchorUpdate_current]; exact hok
  have hstep : stepSt repo pol cfg branch st
      = mergePhase repo pol cfg branch (anchorUpdate pol st) d [p0, p1] := by
    rw [stepSt_eq_treePhase hroot hsig, treePhase_eq_parentsPhase hd' hok',
      parentsPhase_eq hd' hp]
    simp
  have hcond : ([p0, p1].length == 2
      && checkMerge d.ctime cfg.now cfg.clean_merge
      && !pol.unclean_merge_allowed.contains (anchorUpdate pol st).current) = true := by
    rw [anchorUpdate_current, hcm, hnot]
    simp
  have e0 : [p0, p1].headI = p0 := rfl
  have e1 : [p0, p1].getD 1 "" = p1 := rfl
  constructor
  · intro hne
    rw [hstep]
    simp only [mergePhase]
    rw [if_pos hcond, e0, e1, if_pos hne, anchorUpdate_current]
  · intro he
    rw [hstep]
    simp only [mergePhase]
    rw [if_pos hcond, e0, e1, if_neg (not_not_intro he), anchorUpdate_current]

/-- C5 (witness): the unclean merge `M` over `(P, Q)` is rejected with the
diff issued and the branch `B0` checked out again. -/
theorem unclean_merge_rejected_and_workspace_restored_witness :
    stepSt mergeRepo { chainPolicy with incorrect_sha512_allowed := ["M"] }
        defaultCfg "B0" ⟨"M", "x", true, true, "P"⟩
      = ([Ev.checkout "P", Ev.mergeNoFF "Q", Ev.diff "M", Ev.checkout "B0"],
         Sum.inl (Outcome.reject (Reason.uncleanMerge "M") "B0")) :=
  (unclean_merge_rejected_and_workspace_restored mergeRepo
      { chainPolicy with incorrect_sha512_allowed := ["M"] } defaultCfg "B0"
      ⟨"M", "x", true, true, "P"⟩
      ⟨"M", ["P", "Q"], 0, "Tm", ["Tree-SHA512: "]⟩ "P" "Q"
      (by decide) rfl rfl (by decide) rfl rfl rfl).1 (by decide)

/-- C6: a commit whose parsed parent list has more than two entries never lets
the walk continue, and — when its signature and content checks pass — is
rejected as an octopus merge, naming the commit. -/
theorem octopus_merge_rejected :
    ∀ (repo : Repo) (pol : Policy) (cfg : Config) (branch : String) (st : St)
      (d : CommitData) (ps : List String),
      st.current ≠ pol.verified_root →
      repo.commits st.current = some d →
      parsedParents d = some ps →
      ps.length > 2 →
      (∀ st', (stepSt repo pol cfg branch st).2 ≠ Sum.inr st')
      ∧ (repo.verify_sig st.current (sigAllowSha1 pol st)
            (pol.revsig_allowed.contains st.current) = true →
         (treeCheckNeeded pol (anchorUpdate pol st) = true →
            treeLine repo st.current ∈ d.body) →
         stepSt repo pol cfg branch st
           = ([], Sum.inl (Outcome.reject (Reason.octopus st.current) st.workspace))) := by
  intro repo pol cfg branch st d ps hroot hd hp hlen
  have hd' : repo.commits (anchorUpdate pol st).current = some d := by
    rw [anchorUpdate_current]; exact hd
  constructor
  · intro st' hcont
    have h2 := stepSt_inr_to_parentsPhase hcont
    rw [parentsPhase_eq hd' hp, if_pos hlen] at h2
    simp at h2
  · intro hsig hok
    have hok' : treeCheckNeeded pol (anchorUpdate pol st) = true →
        treeLine repo (anchorUpdate pol st).current ∈ d.body := by
      rw [anchorUpdate_current]; exact hok
    rw [stepSt_eq_treePhase hroot hsig, treePhase_eq_parentsPhase hd' hok',
      parentsPhase_eq hd' hp, if_pos hlen, anchorUpdate_current,
      anchorUpdate_workspace]

/-- C6 (witness): the three-parent commit `O` is rejected as an octopus merge
even though its signature verifies and its content check is excepted. -/
theorem octopus_merge_rejected_witness :
    stepSt octoRepo { chainPolicy with incorrect_sha512_allowed := ["O"] }
        defaultCfg "O" ⟨"O", "", true, true, "O"⟩
      = ([], Sum.inl (Outcome.reject (Reason.octopus "O") "O")) :=
  (octopus_merge_rejected octoRepo
      { chainPolicy with incorrect_sha512_allowed := ["O"] } defaultCfg "O"
      ⟨"O", "", true, true, "O"⟩
      ⟨"O", ["P", "Q", "S"], 0, "T", ["Tree-SHA512: "]⟩ ["P", "Q", "S"]
      (by decide) rfl (by decide) (by decide)).2 rfl (by decide)

/-- C8: for a two-parent commit the merge reconstruction is attempted iff the
recency window admits the commit and it is not in the unclean-merge exception
set; the window test is the strict comparison
`commit_time > now - N * 24 * 60 * 60`, and the `float('inf')` default makes
it always true. -/
theorem merge_check_window_guard :
    (∀ (repo : Repo) (pol : Policy) (cfg : Config) (branch : String) (st : St)
      (d : CommitData) (p0 p1 : String),
      st.current ≠ pol.verified_root →
      repo.verify_sig st.current (sigAllowSha1 pol st)
        (pol.revsig_allowed.contains st.current) = true →
      repo.commits st.current = some d →
      (treeCheckNeeded pol (anchorUpdate pol st) = true →
        treeLine repo st.current ∈ d.body) →
      parsedParents d = some [p0, p1] →
      (Ev.mergeNoFF p1 ∈ (stepSt repo pol cfg branch st).1
        ↔ (checkMerge d.ctime cfg.now cfg.clean_merge = true
            ∧ pol.unclean_merge_allowed.contains st.current = false)))
    ∧ (∀ (t : Int) (now : ℚ), checkMerge t now none = true)
    ∧ (∀ (t : Int) (now : ℚ) (q : ℚ),
        checkMerge t now (some q) = decide ((t : ℚ) > now - q * (24 * 60 * 60))) := by
  refine ⟨?_, fun t now => rfl, fun t now q => rfl⟩
  intro repo pol cfg branch st d p0 p1 hroot hsig hd hok hp
  have hd' : repo.commits (anchorUpdate pol st).current = some d := by
    rw [anchorUpdate_current]; exact hd
  have hok' : treeCheckNeeded pol (anchorUpdate pol st) = true →
      treeLine repo (anchorUpdate pol st).current ∈ d.body := by
    rw [anchorUpdate_current]; exact hok
  have hstep : stepSt repo pol cfg branch st
      = mergePhase repo pol cfg branch (anchorUpdate pol st) d [p0, p1] := by
    rw [stepSt_eq_treePhase hroot hsig, treePhase_eq_parentsPhase hd' hok',
      parentsPhase_eq hd' hp]
    simp
  rw [hstep]
  simp only [mergePhase]
  cases hcm : checkMerge d.ctime cfg.now cfg.clean_merge with
  | true =>
    cases hnot : pol.unclean_merge_allowed.contains st.current with
    | false =>
      have hcond : ([p0, p1].length == 2 && true
          && !pol.unclean_merge_allowed.contains (anchorUpdate pol st).current) = true := by
        rw [anchorUpdate_current, hnot]
        simp
      have e0 : [p0, p1].headI = p0 := rfl
      have e1 : [p0, p1].getD 1 "" = p1 := rfl
      rw [if_pos hcond, e0, e1]
      constructor
      · intro _; exact ⟨rfl, rfl⟩
      · intro _
        split <;> simp
    | true =>
      have hcond : ([p0, p1].length == 2 && true
          && !pol.unclean_merge_allowed.contains (anchorUpdate pol st).current) = false := by
        rw [anchorUpdate_current, hnot]
        simp
      rw [if_neg (by simp only [hcond]; exact fun hh => absurd hh (by decide))]
      simp only [List.not_mem_nil, false_iff]
      rintro ⟨-, h2⟩
      exact absurd h2 (by decide)
  | false =>
    have hcond : ([p0, p1].length == 2 && false
        && !pol.unclean_merge_allowed.contains (anchorUpdate pol st).current) = false := by
      simp
    rw [if_neg (by simp only [hcond]; exact fun hh => absurd hh (by decide))]
    simp only [List.not_mem_nil, false_iff]
    rintro ⟨h1, -⟩
    exact absurd h1 (by decide)

/-- C8 (witness): for the merge `M` with the default infinite window and no
exception the reconstruction is attempted (the `git merge --no-ff Q` call
happens). -/
theorem merge_check_window_guard_witness :
    Ev.mergeNoFF "Q" ∈ (stepSt mergeRepo
      { chainPolicy with incorrect_sha512_allowed := ["M"] }
      defaultCfg "B0" ⟨"M", "x", true, true, "P"⟩).1 :=
  (merge_check_window_guard.1 mergeRepo
      { chainPolicy with incorrect_sha512_allowed := ["M"] } defaultCfg "B0"
      ⟨"M", "x", true, true, "P"⟩
      ⟨"M", ["P", "Q"], 0, "Tm", ["Tree-SHA512: "]⟩ "P" "Q"
      (by decide) rfl rfl (by decide) rfl).mpr ⟨rfl, rfl⟩

lemma noParentRepo_treeLine (c : String) : treeLine noParentRepo c = "Tree-SHA512: " := by
  simp [treeLine, noParentRepo, tree_sha512sum, subFeeds, sortedBlobFeeds, fileNames,
    blobPairs, strJoin]

lemma noParentRepo_commits (c : String) :
    noParentRepo.commits c =
      if c = "B" then some ⟨"B", ["A"], 0, "T", ["Tree-SHA512: "]⟩
      else if c = "A" then some ⟨"A", [], 0, "T", ["Tree-SHA512: "]⟩
      else none := rfl

lemma noParentRepo_sig (c : String) (a b : Bool) :
    noParentRepo.verify_sig c a b = true := rfl

/-- C7: reaching the parentless non-anchor commit `A` does NOT produce an
explicit "root of trust not reached" rejection: `%P` prints the empty string,
`''.splitlines()` is `[]`, and the `[0]` at line 202 raises an unhandled
`IndexError`, so the run dies with a traceback (non-zero exit), not a Reject. -/
theorem parentless_commit_crashes_not_rejects :
    mainRun noParentRepo chainPolicy defaultCfg 4 "B"
        = some (Outcome.crash Err.indexError "B")
      ∧ ∀ (r : Reason) (w : String),
          mainRun noParentRepo chainPolicy defaultCfg 4 "B"
            ≠ some (Outcome.reject r w) := by
  have h1 : mainRun noParentRepo chainPolicy defaultCfg 4 "B"
      = some (Outcome.crash Err.indexError "B") := by
    simp [mainRun, runO, stepSt, treePhase, parentsPhase, mergePhase, sigFail,
      anchorUpdate, treeCheckNeeded, noParentRepo_treeLine, noParentRepo_commits,
      noParentRepo_sig, chainPolicy, defaultCfg, pySplit, pySplitAux, pySplitlines,
      joinParents, checkMerge]
  refine ⟨h1, fun r w => ?_⟩
  rw [h1]
  simp

example :
    mainRun chainRepo { chainPolicy with incorrect_sha512_allowed := ["A", "B"] }
      defaultCfg 4 "A" = some Outcome.accept := by decide

example : mainRun chainRepo chainPolicy defaultCfg 4 "A" = some Outcome.accept := by
  simp [mainRun, runO, stepSt, treePhase, parentsPhase, mergePhase, sigFail,
    anchorUpdate, treeCheckNeeded, chainRepo_treeLine, chainRepo_commits,
    chainRepo_sig, chainPolicy,
    defaultCfg, pySplit, pySplitAux, pySplitlines, joinParents, checkMerge]

end VerifyCommits
